import Mathlib

/-!
Verification of the OPT (EDNS0 options pseudo-record) codec from
`src/dns/src/record/opt.rs`.

The codec decodes an OPT record from a byte cursor (`OPT::read`) and
serialises one back to bytes (`OPT::to_bytes`).  Bytes are modelled as
natural numbers (`u8` values are below 256, `u16` values below 65536);
a cursor is modelled as the list of bytes remaining to be read, and each
read returns the value together with the rest of the list.
-/

namespace DogOpt

/-- Wire-decoding error type.  Modelled from the spec: the `wire` module is
not among the sources; the spec's §7 names a single decode error kind, the
decode shortage (`WireError::IO` in the source's test), produced whenever a
cursor read runs past the end of the input. -/
inductive WireError where
  | ioShortage
  deriving DecidableEq, Repr

/-- Encoding-side error type, standing for `std::io::Error`.  Writes into a
growable in-memory byte vector never produce it. -/
inductive IOError where
  | writeFailed
  deriving DecidableEq, Repr

/-- `Cursor::read_u8`: take one byte from the front of the remaining input,
failing with the shortage error when none is left. -/
def read_u8 : List Nat → Except WireError (Nat × List Nat)
  | [] => .error .ioShortage
  | b :: rest => .ok (b, rest)

/-- `Cursor::read_u16::<BigEndian>`: take two bytes from the front of the
remaining input, most significant first, failing with the shortage error
when fewer than two are left. -/
def read_u16_be : List Nat → Except WireError (Nat × List Nat)
  | b0 :: b1 :: rest => .ok (b0 * 256 + b1, rest)
  | _ => .error .ioShortage

/-- The payload loop of `OPT::read`:
`for _ in 0 .. data_length { data.push(c.read_u8()?); }` —
read `n` bytes one at a time, in order, failing on the first shortage. -/
def readData : Nat → List Nat → Except WireError (List Nat × List Nat)
  | 0, input => .ok ([], input)
  | n + 1, input =>
    match read_u8 input with
    | .error e => .error e
    | .ok (b, rest) =>
      match readData n rest with
      | .error e => .error e
      | .ok (bs, rest') => .ok (b :: bs, rest')

/-- The OPT pseudo-record: `udp_payload_size : u16`, `higher_bits : u8`,
`edns0_version : u8`, `flags : u16`, `data : Vec<u8>`. -/
structure OPT where
  udp_payload_size : Nat
  higher_bits : Nat
  edns0_version : Nat
  flags : Nat
  data : List Nat
  deriving DecidableEq, Repr

/-- The fields lie in the ranges the Rust types `u16`/`u8`/`Vec<u8>`
guarantee. -/
def OPT.wf (r : OPT) : Prop :=
  r.udp_payload_size < 65536 ∧ r.higher_bits < 256 ∧ r.edns0_version < 256 ∧
    r.flags < 65536 ∧ ∀ b ∈ r.data, b < 256

instance (r : OPT) : Decidable r.wf := by
  unfold OPT.wf; infer_instance

/-- `OPT::read`: parse an OPT record from the cursor.  Each `?` in the
source is the corresponding match on the read's result. -/
def OPT.read (input : List Nat) : Except WireError (OPT × List Nat) :=
  match read_u16_be input with
  | .error e => .error e
  | .ok (udp_payload_size, c1) =>
    match read_u8 c1 with
    | .error e => .error e
    | .ok (higher_bits, c2) =>
      match read_u8 c2 with
      | .error e => .error e
      | .ok (edns0_version, c3) =>
        match read_u16_be c3 with
        | .error e => .error e
        | .ok (flags, c4) =>
          match read_u16_be c4 with
          | .error e => .error e
          | .ok (data_length, c5) =>
            match readData data_length c5 with
            | .error e => .error e
            | .ok (data, c6) =>
              .ok (⟨udp_payload_size, higher_bits, edns0_version, flags, data⟩, c6)

/-- `WriteBytesExt::write_u8` into a `Vec<u8>` sink: append the byte
(a `u8`, hence reduced modulo 256); a vector write never fails. -/
def write_u8_sink (acc : List Nat) (b : Nat) : Except IOError (List Nat) :=
  .ok (acc ++ [b % 256])

/-- `WriteBytesExt::write_u16::<BigEndian>` into a `Vec<u8>` sink: append
the two big-endian bytes of the `u16` value; a vector write never fails. -/
def write_u16_be_sink (acc : List Nat) (v : Nat) : Except IOError (List Nat) :=
  .ok (acc ++ [v / 256 % 256, v % 256])

/-- The payload loop of `OPT::to_bytes`:
`for b in &self.data { bytes.write_u8(*b)?; }`. -/
def writeData (acc : List Nat) : List Nat → Except IOError (List Nat)
  | [] => .ok acc
  | b :: bs =>
    match write_u8_sink acc b with
    | .error e => .error e
    | .ok acc' => writeData acc' bs

/-- `OPT::to_bytes`: serialise the record.  The length prefix is
`self.data.len() as u16`, i.e. the element count reduced modulo 2^16. -/
def OPT.to_bytes (r : OPT) : Except IOError (List Nat) :=
  match write_u16_be_sink [] r.udp_payload_size with
  | .error e => .error e
  | .ok b1 =>
    match write_u8_sink b1 r.higher_bits with
    | .error e => .error e
    | .ok b2 =>
      match write_u8_sink b2 r.edns0_version with
      | .error e => .error e
      | .ok b3 =>
        match write_u16_be_sink b3 r.flags with
        | .error e => .error e
        | .ok b4 =>
          match write_u16_be_sink b4 (r.data.length % 65536) with
          | .error e => .error e
          | .ok b5 =>
            match writeData b5 r.data with
            | .error e => .error e
            | .ok b6 => .ok b6

/-- The 2-byte big-endian length field of an encoded OPT record: the bytes
at offsets 6 and 7 of the encoding, combined most-significant-first. -/
def lengthField (bs : List Nat) : Nat :=
  bs.getD 6 0 * 256 + bs.getD 7 0

/-! ## Characterisation lemmas -/

theorem readData_ok (n : Nat) (input : List Nat) (h : n ≤ input.length) :
    readData n input = .ok (input.take n, input.drop n) := by
  induction n generalizing input with
  | zero => simp [readData]
  | succ n ih =>
    cases input with
    | nil => simp at h
    | cons b rest =>
      simp only [readData, read_u8]
      rw [ih rest (by simpa using h)]
      simp

theorem readData_err (n : Nat) (input : List Nat) (h : input.length < n) :
    readData n input = .error .ioShortage := by
  induction n generalizing input with
  | zero => simp at h
  | succ n ih =>
    cases input with
    | nil => rfl
    | cons b rest =>
      simp only [readData, read_u8]
      rw [ih rest (by simpa using h)]

theorem writeData_eq (acc bs : List Nat) :
    writeData acc bs = .ok (acc ++ bs.map (fun b => b % 256)) := by
  induction bs generalizing acc with
  | nil => simp [writeData]
  | cons b bs ih =>
    simp only [writeData, write_u8_sink]
    rw [ih]
    simp

theorem to_bytes_eq (r : OPT) :
    r.to_bytes = .ok ([r.udp_payload_size / 256 % 256, r.udp_payload_size % 256,
      r.higher_bits % 256, r.edns0_version % 256,
      r.flags / 256 % 256, r.flags % 256,
      r.data.length % 65536 / 256 % 256, r.data.length % 65536 % 256] ++
      r.data.map (fun b => b % 256)) := by
  simp only [OPT.to_bytes, write_u16_be_sink, write_u8_sink]
  rw [writeData_eq]
  simp

theorem read_cons_ok (a b c d e f g h : Nat) (tail : List Nat)
    (hN : g * 256 + h ≤ tail.length) :
    OPT.read (a :: b :: c :: d :: e :: f :: g :: h :: tail) =
      .ok (⟨a * 256 + b, c, d, e * 256 + f, tail.take (g * 256 + h)⟩,
        tail.drop (g * 256 + h)) := by
  simp only [OPT.read, read_u16_be, read_u8]
  rw [readData_ok _ _ hN]

theorem read_cons_err (a b c d e f g h : Nat) (tail : List Nat)
    (hN : tail.length < g * 256 + h) :
    OPT.read (a :: b :: c :: d :: e :: f :: g :: h :: tail) =
      .error .ioShortage := by
  simp only [OPT.read, read_u16_be, read_u8]
  rw [readData_err _ _ hN]

theorem mapMod_eq_self (l : List Nat) (hl : ∀ b ∈ l, b < 256) :
    l.map (fun b => b % 256) = l := by
  induction l with
  | nil => rfl
  | cons x xs ih =>
    simp only [List.map_cons, List.cons.injEq]
    exact ⟨Nat.mod_eq_of_lt (hl x (by simp)), ih fun b hb => hl b (by simp [hb])⟩

theorem lengthField_append (a b c d e f g h : Nat) (t : List Nat) :
    lengthField ([a, b, c, d, e, f, g, h] ++ t) = g * 256 + h := rfl

theorem drop8_append (a b c d e f g h : Nat) (t : List Nat) :
    ([a, b, c, d, e, f, g, h] ++ t).drop 8 = t := rfl

theorem take_append8 (a b c d e f g h : Nat) (t : List Nat) (k : Nat) (hk : 8 ≤ k) :
    ([a, b, c, d, e, f, g, h] ++ t).take k =
      [a, b, c, d, e, f, g, h] ++ t.take (k - 8) := by
  obtain ⟨j, rfl⟩ : ∃ j, k = 8 + j := ⟨k - 8, by omega⟩
  have h8 : (8 : Nat) + j = ([a, b, c, d, e, f, g, h] : List Nat).length + j := by simp
  have hj : 8 + j - 8 = j := by omega
  rw [hj, h8, List.take_append]

theorem exists_cons8 (input : List Nat) (h8 : 8 ≤ input.length) :
    ∃ a b c d e f g h tail,
      input = a :: b :: c :: d :: e :: f :: g :: h :: tail := by
  match input, h8 with
  | a :: b :: c :: d :: e :: f :: g :: h :: tail, _ =>
    exact ⟨a, b, c, d, e, f, g, h, tail, rfl⟩
  | [], hh => simp at hh
  | [a], hh => simp at hh
  | [a, b], hh => simp at hh
  | [a, b, c], hh => simp at hh
  | [a, b, c, d], hh => simp at hh
  | [a, b, c, d, e], hh => simp at hh
  | [a, b, c, d, e, f], hh => simp at hh
  | [a, b, c, d, e, f, g], hh => simp at hh

theorem read_short (input : List Nat) (h : input.length < 8) :
    OPT.read input = .error .ioShortage := by
  rcases input with _ | ⟨a, _ | ⟨b, _ | ⟨c, _ | ⟨d, _ | ⟨e, _ | ⟨f, _ | ⟨g, _ | ⟨x, tail⟩⟩⟩⟩⟩⟩⟩⟩
  all_goals first
    | rfl
    | (simp only [List.length_cons] at h; omega)

/-! ## Claims -/

/-- Claim C1: for every well-formed OPT record whose payload has length at
most 65535, decoding the bytes produced by encoding the record yields
exactly the record back — all five fields equal — with no bytes left
over. -/
theorem read_to_bytes_roundtrip (r : OPT) (hwf : r.wf)
    (hlen : r.data.length ≤ 65535) :
    ∃ bs, r.to_bytes = .ok bs ∧ OPT.read bs = .ok (r, []) := by
  obtain ⟨h1, h2, h3, h4, h5⟩ := hwf
  refine ⟨_, to_bytes_eq r, ?_⟩
  have hmap : r.data.map (fun b => b % 256) = r.data := mapMod_eq_self r.data h5
  have hn : r.data.length % 65536 = r.data.length := by omega
  have hhb : r.higher_bits % 256 = r.higher_bits := by omega
  have hev : r.edns0_version % 256 = r.edns0_version := by omega
  have hu : r.udp_payload_size / 256 % 256 = r.udp_payload_size / 256 := by omega
  have hf : r.flags / 256 % 256 = r.flags / 256 := by omega
  have hl : r.data.length / 256 % 256 = r.data.length / 256 := by omega
  simp only [hmap, hn, hhb, hev, hu, hf, hl, List.cons_append, List.nil_append]
  rw [read_cons_ok _ _ _ _ _ _ _ _ _ (by omega)]
  have hNN : r.data.length / 256 * 256 + r.data.length % 256 = r.data.length := by
    omega
  rw [hNN, List.take_length, List.drop_length]
  have hu2 : r.udp_payload_size / 256 * 256 + r.udp_payload_size % 256 =
      r.udp_payload_size := by omega
  have hf2 : r.flags / 256 * 256 + r.flags % 256 = r.flags := by omega
  rw [hu2, hf2]

theorem read_to_bytes_roundtrip_witness :
    ∃ bs, OPT.to_bytes ⟨1452, 0, 0, 0, [171, 205]⟩ = .ok bs ∧
      OPT.read bs = .ok (⟨1452, 0, 0, 0, [171, 205]⟩, []) :=
  read_to_bytes_roundtrip ⟨1452, 0, 0, 0, [171, 205]⟩ (by decide) (by decide)

/-- Claim C2: on any input starting with at least 8 bytes whose announced
payload length fits in the remainder, decoding consumes, in order, 2 bytes
big-endian into `udp_payload_size`, 1 byte into `higher_bits`, 1 byte into
`edns0_version`, 2 bytes big-endian into `flags`, 2 bytes big-endian as the
payload length, and then exactly that many payload bytes in order; the
returned record is populated from exactly those bytes and the rest of the
input is untouched. -/
theorem read_consumes (a b c d e f g h : Nat) (tail : List Nat)
    (hN : g * 256 + h ≤ tail.length) :
    OPT.read (a :: b :: c :: d :: e :: f :: g :: h :: tail) =
      .ok (⟨a * 256 + b, c, d, e * 256 + f, tail.take (g * 256 + h)⟩,
        tail.drop (g * 256 + h)) :=
  read_cons_ok a b c d e f g h tail hN

theorem read_consumes_witness :
    OPT.read [0, 0, 7, 1, 0, 3, 0, 2, 171, 205, 9] =
      .ok (⟨0, 7, 1, 3, [171, 205]⟩, [9]) := by
  rw [read_consumes 0 0 7 1 0 3 0 2 [171, 205, 9] (by decide)]
  rfl

/-- Claim C5: decoding a completely empty byte source fails with the
decode-shortage error, the same error kind as a source that runs out of
bytes mid-field (here: 3 bytes, ending inside the record), and no record is
produced in either case. -/
theorem read_empty_shortage :
    OPT.read [] = .error .ioShortage ∧
      OPT.read [5, 172, 0] = .error .ioShortage :=
  ⟨rfl, rfl⟩

/-- Claim C6: the bytes `05 AC 00 00 00 00 00 00` decode to the record
`{udp_payload_size: 1452, higher_bits: 0, edns0_version: 0, flags: 0,
data: []}` with nothing left over, and encoding that record produces
exactly those bytes. -/
theorem read_write_concrete :
    OPT.read [0x05, 0xAC, 0x00, 0x00, 0x00, 0x00, 0x00, 0x00] =
        .ok (⟨1452, 0, 0, 0, []⟩, []) ∧
      OPT.to_bytes ⟨1452, 0, 0, 0, []⟩ =
        .ok [0x05, 0xAC, 0x00, 0x00, 0x00, 0x00, 0x00, 0x00] :=
  ⟨rfl, rfl⟩

/-- Claim C9: encoding always succeeds, for every record value (payloads
longer than 65535 bytes included): the sink is an in-memory growable byte
vector whose writes cannot fail, so `to_bytes` always returns an `ok`
byte sequence. -/
theorem to_bytes_never_fails (r : OPT) : ∃ bs, r.to_bytes = .ok bs :=
  ⟨_, to_bytes_eq r⟩

/-- Claim C3 (counterexample): for the record with a 65536-byte payload the
2-byte length field of the encoding — written as `data.len() as u16`, i.e.
the element count truncated to 16 bits — is 0, not the element count, so
the field does not equal the number of payload bytes that follow it. -/
theorem to_bytes_length_field_counterexample :
    ∃ bs, OPT.to_bytes ⟨0, 0, 0, 0, List.replicate 65536 0⟩ = .ok bs ∧
      lengthField bs ≠ (bs.drop 8).length := by
  refine ⟨_, to_bytes_eq _, ?_⟩
  rw [lengthField_append, drop8_append]
  simp only [List.length_map, List.length_replicate]
  omega

/-- Claim C3 (amended): for every record whose payload has at most 65535
bytes, the 2-byte big-endian length field of the encoding equals the number
of payload bytes that follow it. -/
theorem to_bytes_length_field (r : OPT) (bs : List Nat)
    (hlen : r.data.length ≤ 65535) (hbs : r.to_bytes = .ok bs) :
    lengthField bs = (bs.drop 8).length := by
  rw [to_bytes_eq] at hbs
  injection hbs with hbs
  subst hbs
  rw [lengthField_append, drop8_append, List.length_map]
  omega

theorem to_bytes_length_field_witness :
    lengthField [0, 0, 0, 0, 0, 0, 0, 1, 171] =
      (([0, 0, 0, 0, 0, 0, 0, 1, 171] : List Nat).drop 8).length :=
  to_bytes_length_field ⟨0, 0, 0, 0, [171]⟩ [0, 0, 0, 0, 0, 0, 0, 1, 171]
    (by decide) rfl

/-- Claim C4: decoding any proper prefix of an encoding of a record with at
most 65535 payload bytes fails with the decode-shortage error. -/
theorem read_prefix_of_encoding_fails (r : OPT) (bs : List Nat) (k : Nat)
    (hlen : r.data.length ≤ 65535) (hbs : r.to_bytes = .ok bs)
    (hk : k < bs.length) :
    OPT.read (bs.take k) = .error .ioShortage := by
  rw [to_bytes_eq] at hbs
  injection hbs with hbs
  subst hbs
  simp only [List.length_append, List.length_cons, List.length_nil,
    List.length_map] at hk
  by_cases h8 : k < 8
  · apply read_short
    rw [List.length_take]
    omega
  · rw [take_append8 _ _ _ _ _ _ _ _ _ _ (by omega)]
    simp only [List.cons_append, List.nil_append]
    apply read_cons_err
    rw [List.length_take, List.length_map]
    omega

theorem read_prefix_of_encoding_fails_witness :
    OPT.read (([5, 172, 0, 0, 0, 0, 0, 0] : List Nat).take 3) =
      .error .ioShortage :=
  read_prefix_of_encoding_fails ⟨1452, 0, 0, 0, []⟩ [5, 172, 0, 0, 0, 0, 0, 0] 3
    (by decide) rfl (by decide)

/-- Claim C7: decoding is total and returns only typed results: on every
input it yields either a record or the decode-shortage error, and it yields
the error exactly when the input is shorter than the 8-byte header plus the
payload length announced in bytes 6 and 7 — the empty input included. -/
theorem read_total_typed (input : List Nat) :
    ((∃ r rest, OPT.read input = .ok (r, rest)) ∨
        OPT.read input = .error .ioShortage) ∧
      (OPT.read input = .error .ioShortage ↔
        input.length < 8 + (input.getD 6 0 * 256 + input.getD 7 0)) := by
  by_cases h8 : input.length < 8
  · have he := read_short input h8
    exact ⟨Or.inr he, fun _ => by omega, fun _ => he⟩
  · obtain ⟨a, b, c, d, e, f, g, h, tail, rfl⟩ := exists_cons8 input (by omega)
    have hgd6 : (a :: b :: c :: d :: e :: f :: g :: h :: tail).getD 6 0 = g := rfl
    have hgd7 : (a :: b :: c :: d :: e :: f :: g :: h :: tail).getD 7 0 = h := rfl
    rw [hgd6, hgd7]
    by_cases hN : g * 256 + h ≤ tail.length
    · have hok := read_cons_ok a b c d e f g h tail hN
      refine ⟨Or.inl ⟨_, _, hok⟩, ?_, ?_⟩
      · intro herr
        rw [hok] at herr
        exact Except.noConfusion herr
      · intro hlt
        exfalso
        simp only [List.length_cons] at hlt
        omega
    · have herr := read_cons_err a b c d e f g h tail (by omega)
      refine ⟨Or.inr herr, fun _ => ?_, fun _ => herr⟩
      simp only [List.length_cons]
      omega

/-- Claim C8: every byte sequence made of an 8-byte header whose length
field announces exactly the number of payload bytes that follow decodes
successfully, and re-encoding the decoded record reproduces the sequence
exactly: encoding is a left inverse of decoding on well-formed full
buffers. -/
theorem read_then_to_bytes (a b c d e f g h : Nat) (payload : List Nat)
    (ha : a < 256) (hb : b < 256) (hc : c < 256) (hd : d < 256)
    (he : e < 256) (hf : f < 256) (hg : g < 256) (hh : h < 256)
    (hpay : ∀ x ∈ payload, x < 256)
    (hlen : payload.length = g * 256 + h) :
    ∃ r, OPT.read ([a, b, c, d, e, f, g, h] ++ payload) = .ok (r, []) ∧
      r.to_bytes = .ok ([a, b, c, d, e, f, g, h] ++ payload) := by
  refine ⟨⟨a * 256 + b, c, d, e * 256 + f, payload⟩, ?_, ?_⟩
  · simp only [List.cons_append, List.nil_append]
    rw [read_cons_ok _ _ _ _ _ _ _ _ _ (by omega), ← hlen,
      List.take_length, List.drop_length]
  · rw [to_bytes_eq]
    have e1 : (a * 256 + b) / 256 % 256 = a := by omega
    have e2 : (a * 256 + b) % 256 = b := by omega
    have e3 : c % 256 = c := by omega
    have e4 : d % 256 = d := by omega
    have e5 : (e * 256 + f) / 256 % 256 = e := by omega
    have e6 : (e * 256 + f) % 256 = f := by omega
    have e7 : payload.length % 65536 / 256 % 256 = g := by omega
    have e8 : payload.length % 65536 % 256 = h := by omega
    simp only [e1, e2, e3, e4, e5, e6, e7, e8, mapMod_eq_self payload hpay]

theorem read_then_to_bytes_witness :
    ∃ r, OPT.read ([0, 0, 0, 0, 0, 0, 0, 2] ++ [171, 205]) = .ok (r, []) ∧
      r.to_bytes = .ok ([0, 0, 0, 0, 0, 0, 0, 2] ++ [171, 205]) :=
  read_then_to_bytes 0 0 0 0 0 0 0 2 [171, 205] (by decide) (by decide)
    (by decide) (by decide) (by decide) (by decide) (by decide) (by decide)
    (by decide) (by decide)

/-- Claim C10: every record returned by a successful decode of a sequence
of bytes (values below 256) has a payload of at most 65535 bytes — it is
bounded by the 16-bit length prefix read from the wire. -/
theorem read_payload_le (input : List Nat) (r : OPT) (rest : List Nat)
    (hbytes : ∀ x ∈ input, x < 256)
    (hread : OPT.read input = .ok (r, rest)) :
    r.data.length ≤ 65535 := by
  by_cases h8 : input.length < 8
  · rw [read_short input h8] at hread
    exact Except.noConfusion hread
  · obtain ⟨a, b, c, d, e, f, g, h, tail, rfl⟩ := exists_cons8 input (by omega)
    by_cases hN : g * 256 + h ≤ tail.length
    · rw [read_cons_ok a b c d e f g h tail hN] at hread
      injection hread with hpair
      injection hpair with h1 h2
      subst h1
      have hg : g < 256 := hbytes g (by simp)
      have hh : h < 256 := hbytes h (by simp)
      show (List.take (g * 256 + h) tail).length ≤ 65535
      rw [List.length_take]
      omega
    · rw [read_cons_err a b c d e f g h tail (by omega)] at hread
      exact Except.noConfusion hread

theorem read_payload_le_witness :
    (OPT.mk 1452 0 0 0 []).data.length ≤ 65535 :=
  read_payload_le [5, 172, 0, 0, 0, 0, 0, 0] ⟨1452, 0, 0, 0, []⟩ []
    (by decide) rfl

end DogOpt
